import Mathlib

/-!
# Verification of the aegis worker-pool core

A shallow embedding, in Lean 4, of the `ThreadPool` / `ThreadPoolFactory`
scheduler of `src/domain/thread-pool.js` and of the WASM string-array
interop (`parse` / `clean`) of the wasm interop module, together with
theorems settling the frozen specification claims about them.

Conventions of the embedding:
* JS numbers used as counters are modelled as `Nat`; `Math.round` of the
  non-negative quotient `(q / r) * 100` is modelled exactly on rationals
  (`round x = floor (x + 1/2)`), and the JS `NaN` produced when `r = 0`
  is modelled as `Option.none`.
* Stateful methods become explicit state-passing functions on `PoolState`.
* Promise settlement is modelled by the inductive `PromiseOutcome`; a
  rejection swallowed by a `.catch(console.error)` handler surfaces to the
  caller as resolution with `undefined`, exactly as in the source.
* `busyThreads` is bookkeeping state recording which threads are currently
  executing a job.  The JS object only keeps the `totalThreads` counter;
  the bookkeeping lets theorems speak about "every Thread of the pool".
-/

namespace Aegis

/-- A worker reply wrapped as a Result (`{hasError, message}`). -/
structure JobResult where
  hasError : Bool
  message : String
deriving DecidableEq, Repr

/-- Pool options as passed to the `ThreadPool` constructor (`options`).
`none` models an absent field; a present `0` is falsy in JS, so the
`options.x || DEFAULT` idiom also replaces `0` by the default. -/
structure PoolOptions where
  maxThreads : Option Nat := none
  minThreads : Option Nat := none
  queueTolerance : Option Nat := none
deriving DecidableEq, Repr

/-- Model of `options.x || d` : JS falsy-default, where `0` and absent both yield `d`. -/
def orDefault (o : Option Nat) (d : Nat) : Nat :=
  match o with
  | some v => if v = 0 then d else v
  | none => d

/-- State of one `ThreadPool` (fields of the JS object, plus the
`busyThreads` bookkeeping list and a fresh-id counter for new workers). -/
structure PoolState where
  name : String
  freeThreads : List Nat
  busyThreads : List Nat
  waitingJobs : List Nat
  closed : Bool
  maxThreads : Nat
  minThreads : Nat
  queueTolerance : Nat
  jobsRequested : Nat
  jobsQueued : Nat
  totalThreads : Nat
  reloads : Nat
  nextThreadId : Nat
deriving DecidableEq, Repr

/-- The `ThreadPool` constructor with the source defaults
(`DEFAULT_THREADPOOL_MIN = 1`, `DEFAULT_THREADPOOL_MAX = 2`,
`DEFAULT_JOBQUEUE_TOLERANCE = 25`). -/
def initPool (name : String) (opts : PoolOptions) : PoolState :=
  { name := name
    freeThreads := []
    busyThreads := []
    waitingJobs := []
    closed := false
    maxThreads := orDefault opts.maxThreads 2
    minThreads := orDefault opts.minThreads 1
    queueTolerance := orDefault opts.queueTolerance 25
    jobsRequested := 0
    jobsQueued := 0
    totalThreads := 0
    reloads := 0
    nextThreadId := 0 }

/-- Model of `Math.round((q / r) * 100)` on exact rationals:
`round x = floor (x + 1/2) = (200 q + r) / (2 r)` in `Nat` division.
The JS value for `r = 0` is `NaN`, modelled as `none`. -/
def jsRoundPct (q r : Nat) : Option Nat :=
  if r = 0 then none else some ((200 * q + r) / (2 * r))

/-- Model of `jobQueueRate()` : `Math.round((jobsQueued / jobsRequested) * 100)`. -/
def jobQueueRate (s : PoolState) : Option Nat :=
  jsRoundPct s.jobsQueued s.jobsRequested

/-- Model of `noJobsRunning()` : `totalThreads === freeThreads.length`. -/
def noJobsRunning (s : PoolState) : Bool :=
  s.totalThreads == s.freeThreads.length

/-- All threads owned by the pool: the free ones plus those executing jobs. -/
def poolThreads (s : PoolState) : List Nat :=
  s.freeThreads ++ s.busyThreads

/-- Model of `jobQueueRate() > maxJobQueueRate()` as evaluated by `threadAlloc`;
`NaN > x` is `false` in JS. -/
def rateAboveTolerance (s : PoolState) : Bool :=
  match jobQueueRate s with
  | some v => s.queueTolerance < v
  | none => false

/-- The growth condition of `threadAlloc()`:
`poolSize() === 0 || (poolSize() < maxPoolSize() && jobQueueRate() > maxJobQueueRate())`. -/
def threadAllocCond (s : PoolState) : Bool :=
  (s.totalThreads == 0) ||
    (decide (s.totalThreads < s.maxThreads) && rateAboveTolerance s)

/-- Model of `newThread` (success path): starts a worker, increments `totalThreads`,
and resolves with the new thread handle. -/
def newThread (s : PoolState) : Nat × PoolState :=
  (s.nextThreadId,
    { s with
        totalThreads := s.totalThreads + 1
        nextThreadId := s.nextThreadId + 1 })

/-- Model of `threadAlloc()` : starts a new thread when the growth condition holds,
otherwise resolves with `undefined` (`none`). -/
def threadAlloc (s : PoolState) : Option Nat × PoolState :=
  if threadAllocCond s then
    let p := newThread s
    (some p.1, p.2)
  else (none, s)

/-- What `run` does with the submission, at submission time. -/
inductive RunAction where
  | dispatched (thread : Nat)
  | queued
deriving DecidableEq, Repr

/-- One call of `ThreadPool.run(jobName, jobData)` up to the point where the
job is either posted to a thread or pushed onto `waitingJobs`:
increment `jobsRequested`; if closed, fall through to the queue; otherwise
shift a free thread, or else `threadAlloc`; with a thread, post the job;
without one, push a continuation onto `waitingJobs` and bump `jobsQueued`. -/
def run (s : PoolState) (jobId : Nat) : RunAction × PoolState :=
  let s1 := { s with jobsRequested := s.jobsRequested + 1 }
  if s1.closed then
    (RunAction.queued,
      { s1 with
          waitingJobs := s1.waitingJobs ++ [jobId]
          jobsQueued := s1.jobsQueued + 1 })
  else
    match s1.freeThreads with
    | t :: rest =>
      (RunAction.dispatched t,
        { s1 with freeThreads := rest, busyThreads := s1.busyThreads ++ [t] })
    | [] =>
      match threadAlloc s1 with
      | (some t, s2) =>
        (RunAction.dispatched t,
          { s2 with busyThreads := s2.busyThreads ++ [t] })
      | (none, s2) =>
        (RunAction.queued,
          { s2 with
              waitingJobs := s2.waitingJobs ++ [jobId]
              jobsQueued := s2.jobsQueued + 1 })

/-- What the worker does with a posted job. -/
inductive WorkerEvent where
  | reply (result : JobResult)
  | workerError
deriving DecidableEq, Repr

/-- How a JS promise observed by a caller settles. -/
inductive PromiseOutcome where
  | resolvedResult (r : JobResult)
  | resolvedUndefined
  | resolvedPool
  | resolvedBool (b : Bool)
  | pending
  | rejected (msg : String)
deriving DecidableEq, Repr

/-- Holds (as `true`) exactly on a rejection. -/
def isRejected : PromiseOutcome → Bool
  | PromiseOutcome.rejected _ => true
  | _ => false

/-- The worker-reply handler installed by `postJob`: on a reply, hand the
thread to the next waiting job if any, else push it back to `freeThreads`;
resolve with the Result (error Results included).  A worker `error` event
rejects the inner promise, which `.catch(console.error)` converts into
resolution with `undefined`; the handler that re-queues the thread never
ran, so the thread stays out of `freeThreads`. -/
def completeJob (s : PoolState) (thread : Nat) (ev : WorkerEvent) :
    PromiseOutcome × PoolState :=
  match ev with
  | WorkerEvent.reply result =>
    match s.waitingJobs with
    | _ :: rest =>
      (PromiseOutcome.resolvedResult result, { s with waitingJobs := rest })
    | [] =>
      (PromiseOutcome.resolvedResult result,
        { s with
            freeThreads := s.freeThreads ++ [thread]
            busyThreads := s.busyThreads.erase thread })
  | WorkerEvent.workerError => (PromiseOutcome.resolvedUndefined, s)

/-- The eventual settlement of the promise returned by `run`:
`exec = none` covers a job that is never served (queued forever, or the
worker never replies) — the promise stays pending; `exec = some (t, ev)`
covers the job eventually executing on thread `t` (directly or through the
`waitingJobs` continuation, whose `cb` resolves the same promise). -/
def runEventualOutcome (s : PoolState) (jobId : Nat)
    (exec : Option (Nat × WorkerEvent)) : PromiseOutcome :=
  let s1 := (run s jobId).2
  match exec with
  | none => PromiseOutcome.pending
  | some (t, ev) => (completeJob s1 t ev).1

/-- Model of `close()` . -/
def close (s : PoolState) : PoolState := { s with closed := true }

/-- Model of `open()` . -/
def openPool (s : PoolState) : PoolState := { s with closed := false }

/-- Model of `drain()` : throws (rejects) when the pool is not closed; resolves with
the pool when `noJobsRunning`, or once the `noJobsRunning` event fires
within the 4-second bound (`completesWithinBound`); when the bound expires,
`setTimeout(reject, 4000)` fires but the trailing `.catch(console.error)`
swallows the rejection, so the caller sees resolution with `undefined`. -/
def drain (s : PoolState) (completesWithinBound : Bool) : PromiseOutcome :=
  if s.closed = false then PromiseOutcome.rejected "close pool first"
  else if noJobsRunning s then PromiseOutcome.resolvedPool
  else if completesWithinBound then PromiseOutcome.resolvedPool
  else PromiseOutcome.resolvedUndefined

/-- Loop body of `startThreads()` : run `n` iterations of
`freeThreads.push(await startThread())`. -/
def startThreadsGo (s : PoolState) : Nat → PoolState
  | 0 => s
  | n + 1 =>
    let p := newThread s
    startThreadsGo { p.2 with freeThreads := p.2.freeThreads ++ [p.1] } n

/-- Model of `startThreads()` (success path): start `minPoolSize()` new
threads, pushing each onto `freeThreads`; there is no check of existing
threads and no reject path, and the promise resolves with the pool. -/
def startThreads (s : PoolState) : PoolState :=
  startThreadsGo s s.minThreads

/-- Model of `startThreads()` together with its settlement. -/
def startThreadsP (s : PoolState) : PromiseOutcome × PoolState :=
  (PromiseOutcome.resolvedPool, startThreads s)

/-- Observable sub-steps of `stopThreads()`. -/
inductive StopAction where
  | removeFromFreeStack (threads : List Nat)
  | delay
  | terminate (thread : Nat)
deriving DecidableEq, Repr

/-- Model of `stopThreads()` : splice every thread out of the free stack, zero the
`totalThreads` counter, then — after a deliberate delay — terminate each
spliced thread.  Returns the new state and the ordered action trace. -/
def stopThreads (s : PoolState) : PoolState × List StopAction :=
  let killed := s.freeThreads
  ({ s with freeThreads := [], totalThreads := 0 },
    StopAction.removeFromFreeStack killed :: StopAction.delay ::
      killed.map StopAction.terminate)

/-- Events driving a pool: a `run` submission or a worker finishing. -/
inductive PoolEvent where
  | submit (jobId : Nat)
  | workerDone (thread : Nat) (ev : WorkerEvent)
deriving DecidableEq, Repr

/-- One event-step of the pool state. -/
def step (s : PoolState) (e : PoolEvent) : PoolState :=
  match e with
  | PoolEvent.submit j => (run s j).2
  | PoolEvent.workerDone t ev => (completeJob s t ev).2

/-- Replay a sequence of events from a state. -/
def replay (s : PoolState) (es : List PoolEvent) : PoolState :=
  es.foldl step s

/-- Bound `jobQueueRate() ≤ 100` as a boolean, with the `NaN` of a fresh pool counted as within
the bound (in JS, `NaN > 100` is `false`). -/
def rateLe100 (s : PoolState) : Bool :=
  match jobQueueRate s with
  | some v => v ≤ 100
  | none => true

/-! ## ThreadPoolFactory: the pool registry

The factory closes over `threadPools : Map<string, ThreadPool>`.  Map keys
are strings; `Map.delete(arg)` compares `arg` with the keys by
SameValueZero, so an argument that is not a string can never match a key.
The argument sort is made explicit so the embedding can express the
`threadPools.delete(pool)` call in `destroy`, which passes the ThreadPool
object itself. -/

/-- The registry: insertion-ordered key/pool entries. -/
abbrev Registry := List (String × PoolState)

/-- An argument handed to `Map.delete` / `Map.get`: a string, or some other
object (here: a ThreadPool). -/
inductive MapArg where
  | str (s : String)
  | poolObj (p : PoolState)
deriving DecidableEq

/-- Model of `threadPools.get(k)` for a string key. -/
def lookupPool (reg : Registry) (k : String) : Option PoolState :=
  (List.find? (fun kv => kv.1 == k) reg).map (fun kv => kv.2)

/-- Model of `threadPools.set(k, p)` : replace in place or append. -/
def mapSet (reg : Registry) (k : String) (p : PoolState) : Registry :=
  if (List.find? (fun kv => kv.1 == k) reg).isSome then
    List.map (fun kv => if kv.1 == k then (kv.1, p) else kv) reg
  else reg ++ [(k, p)]

/-- Model of `threadPools.delete(arg)` : SameValueZero comparison of `arg` against
the (string) keys; a non-string argument never matches, the map is left
unchanged and `false` is returned. -/
def mapDelete (reg : Registry) (arg : MapArg) : Bool × Registry :=
  match arg with
  | MapArg.poolObj _ => (false, reg)
  | MapArg.str k =>
    if (List.find? (fun kv => kv.1 == k) reg).isSome then
      (true, List.filter (fun kv => kv.1 != k) reg)
    else (false, reg)

/-- Model of `listPools()` : the keys, in insertion order. -/
def listPools (reg : Registry) : List String :=
  List.map (fun kv => kv.1) reg

/-- JS `String.prototype.toUpperCase` on the ASCII model names in play. -/
def jsToUpper (s : String) : String := String.mk (List.map Char.toUpper s.data)

/-- Model of `createThreadPool(modelName, options)` : construct the pool and store it
under `modelName` — the raw name, not upper-cased. -/
def createThreadPool (reg : Registry) (modelName : String)
    (opts : PoolOptions) : PoolState × Registry :=
  let pool := initPool modelName opts
  (pool, mapSet reg modelName pool)

/-- Model of `ThreadPoolFactory.destroy(poolName)` : look the pool up by the
upper-cased name; when absent, `reject('no such pool')` fires but the outer
`.catch(console.error)` swallows it, so the caller observes resolution with
`undefined` and the registry is untouched; otherwise `close`, `drain`,
`stopThreads`, then `threadPools.delete(pool)` — passing the pool object —
and resolve with `delete`'s boolean.  When `drain` times out it resolves
with `undefined` (its rejection is swallowed), so `undefined.stopThreads()`
throws, the inner `.catch(reject)` rejects, and the outer
`.catch(console.error)` again turns that into resolution with `undefined`. -/
def destroy (reg : Registry) (poolName : String) (drainCompletes : Bool) :
    PromiseOutcome × Registry :=
  let key := jsToUpper poolName
  match lookupPool reg key with
  | none => (PromiseOutcome.resolvedUndefined, reg)
  | some pool =>
    let p1 := close pool
    match drain p1 drainCompletes with
    | PromiseOutcome.resolvedPool =>
      let p2 := (stopThreads p1).1
      let reg1 := mapSet reg key p2
      let d := mapDelete reg1 (MapArg.poolObj p2)
      (PromiseOutcome.resolvedBool d.1, d.2)
    | _ => (PromiseOutcome.resolvedUndefined, mapSet reg key p1)

end Aegis

namespace Wasm

/-!  ## WASM interop: `parse` and `clean`

Shallow embedding of the scalar value domain the string-array ABI carries.
JS numbers are split by integrality, because `Number.prototype.toString`
prints an integral double without a decimal point; non-integral finite
doubles are idealized as exact rationals, `Infinity` and `NaN` get their
own constructors.  `undef` stands for a field of non-scalar type, so the
`typeof`-filter in `clean` is expressible. -/

/-- A JS value sitting in a domain-object field. -/
inductive JsVal where
  | str (s : String)
  | intNum (n : Int)
  | floatNum (q : Rat)
  | infNum (neg : Bool)
  | nanNum
  | boolean (b : Bool)
  | undef
deriving DecidableEq, Repr

/-- Model of `typeof v` . -/
def typeofJs : JsVal → String
  | JsVal.str _ => "string"
  | JsVal.intNum _ => "number"
  | JsVal.floatNum _ => "number"
  | JsVal.infNum _ => "number"
  | JsVal.nanNum => "number"
  | JsVal.boolean _ => "boolean"
  | JsVal.undef => "undefined"

/-- Model of the filter `typeof v` in string, number, boolean. -/
def isScalarType (v : JsVal) : Bool :=
  typeofJs v == "string" || typeofJs v == "number" || typeofJs v == "boolean"

/-- JS truthiness of a field value (an absent field is `undefined`). -/
def truthy : JsVal → Bool
  | JsVal.str s => s ≠ ""
  | JsVal.intNum n => n ≠ 0
  | JsVal.floatNum q => q ≠ 0
  | JsVal.infNum _ => true
  | JsVal.nanNum => false
  | JsVal.boolean b => b
  | JsVal.undef => false

/-- Decimal digit characters and their values. -/
def digitChar (d : Nat) : Char := Char.ofNat (48 + d)

/-- Decimal digit test, `c` between `0` and `9`. -/
def jsIsDigit (c : Char) : Bool :=
  decide (48 ≤ c.toNat) && decide (c.toNat ≤ 57)

/-- Value of a digit character. -/
def digitVal (c : Char) : Nat := c.toNat - 48

/-- Hex digit predicate for the `0x` branch of `parseInt`. -/
def jsIsHexDigit (c : Char) : Bool :=
  jsIsDigit c ||
    (decide (97 ≤ c.toNat) && decide (c.toNat ≤ 102)) ||
    (decide (65 ≤ c.toNat) && decide (c.toNat ≤ 70))

/-- Value of a hex digit character. -/
def hexDigitVal (c : Char) : Nat :=
  if decide (97 ≤ c.toNat) then c.toNat - 87
  else if decide (65 ≤ c.toNat) then c.toNat - 55
  else c.toNat - 48

/-- Whitespace and line terminators skipped by `parseInt` / `parseFloat`:
TAB, LF, VT, FF, CR, SP, NBSP, the Ogham space mark, the Unicode Zs range
U+2000..U+200A, LS, PS, the narrow no-break and medium mathematical
spaces, the ideographic space and ZWNBSP. -/
def jsIsSpace (c : Char) : Bool :=
  decide (c.toNat = 9) || decide (c.toNat = 10) || decide (c.toNat = 11) ||
  decide (c.toNat = 12) || decide (c.toNat = 13) || decide (c.toNat = 32) ||
  decide (c.toNat = 160) || decide (c.toNat = 5760) ||
  (decide (8192 ≤ c.toNat) && decide (c.toNat ≤ 8202)) ||
  decide (c.toNat = 8232) || decide (c.toNat = 8233) ||
  decide (c.toNat = 8239) || decide (c.toNat = 8287) ||
  decide (c.toNat = 12288) || decide (c.toNat = 65279)

/-- Big-endian digit-list value. -/
def decVal (ds : List Char) : Nat :=
  List.foldl (fun a c => 10 * a + digitVal c) 0 ds

/-- Big-endian hex digit-list value. -/
def hexVal (ds : List Char) : Nat :=
  List.foldl (fun a c => 16 * a + hexDigitVal c) 0 ds

/-- Leading sign, returning (negative?, rest). -/
def readSign (cs : List Char) : Bool × List Char :=
  match cs with
  | c :: rest =>
    if c == '-' then (true, rest)
    else if c == '+' then (false, rest)
    else (false, cs)
  | [] => (false, [])

/-- Apply a JS sign to a magnitude (`-0` collapses to `0` in `Int`). -/
def applySign (neg : Bool) (v : Nat) : Int :=
  if neg then -(v : Int) else (v : Int)

/-- Digit-scanning core of `parseInt`: on the characters after sign, the
`0x`/`0X` prefix selects hexadecimal, otherwise the longest decimal digit
prefix; `NaN` (here `none`) when no digit follows. -/
def parseIntCore (body : List Char) (neg : Bool) : Option Int :=
  let hex : Bool :=
    match body with
    | c0 :: c1 :: _ => c0 == '0' && (c1 == 'x' || c1 == 'X')
    | _ => false
  if hex then
    let ds := List.takeWhile jsIsHexDigit (List.drop 2 body)
    if ds.isEmpty then none else some (applySign neg (hexVal ds))
  else
    let ds := List.takeWhile jsIsDigit body
    if ds.isEmpty then none else some (applySign neg (decVal ds))

/-- Model of `parseInt(s)` with no radix argument: skip whitespace, read an
optional sign, then scan digits. -/
def parseIntJs (s : String) : Option Int :=
  let p := readSign (List.dropWhile jsIsSpace s.toList)
  parseIntCore p.2 p.1

/-- A value produced by `parseFloat`: a finite (exact-rational) number or a
signed infinity. -/
inductive FloatRes where
  | finite (q : Rat)
  | inf (neg : Bool)
deriving DecidableEq, Repr

/-- Model of `parseFloat(s)` : skip whitespace, optional sign, then the longest
`Infinity | digits [. digits] [exp] | . digits [exp]` prefix; the decimal
value is taken exactly (the double rounding of the runtime is idealized
away); `none` models `NaN`. -/
def parseFloatJs (s : String) : Option FloatRes :=
  let cs := List.dropWhile jsIsSpace s.toList
  let p := readSign cs
  let body := p.2
  if List.isPrefixOf "Infinity".toList body then some (FloatRes.inf p.1)
  else
    let intDs := List.takeWhile jsIsDigit body
    let rest1 := List.drop intDs.length body
    let fracDs :=
      match rest1 with
      | c :: tl => if c == '.' then List.takeWhile jsIsDigit tl else []
      | [] => []
    let rest2 :=
      match rest1 with
      | c :: tl => if c == '.' then List.drop fracDs.length tl else rest1
      | [] => rest1
    if intDs.isEmpty && fracDs.isEmpty then none
    else
      let mant : Rat :=
        (decVal intDs : Rat) + (decVal fracDs : Rat) / ((10 : Rat) ^ fracDs.length)
      let expPart : Int :=
        match rest2 with
        | e :: tl =>
          if e == 'e' || e == 'E' then
            let q := readSign tl
            let eds := List.takeWhile jsIsDigit q.2
            if eds.isEmpty then 0
            else if q.1 then -(decVal eds : Int) else (decVal eds : Int)
          else 0
        | [] => 0
      let mag : Rat := mant * (10 : Rat) ^ expPart
      some (FloatRes.finite (if p.1 then -mag else mag))

/-- Case-insensitive substring test, the model of `/pat/i.test(s)`. -/
def containsSub (pat : List Char) : List Char → Bool
  | [] => pat.isEmpty
  | c :: tl => List.isPrefixOf pat (c :: tl) || containsSub pat tl

/-- Lower-casing of the subject, character-wise, for the `/i` flag. -/
def lowerChars (v : String) : List Char := List.map Char.toLower v.data

/-- Model of the regex test for `true`, case-insensitive. -/
def matchesTrue (v : String) : Bool :=
  containsSub "true".toList (lowerChars v)

/-- Model of the regex test for `false`, case-insensitive. -/
def matchesFalse (v : String) : Bool :=
  containsSub "false".toList (lowerChars v)

/-- The `parse` coercion of the interop module: integer parse, then float
parse, then the `true` / `false` regexes, then the string itself. -/
def parseJs (v : String) : JsVal :=
  match parseIntJs v with
  | some n => JsVal.intNum n
  | none =>
    match parseFloatJs v with
    | some (FloatRes.finite q) =>
      if q.den = 1 then JsVal.intNum q.num else JsVal.floatNum q
    | some (FloatRes.inf neg) => JsVal.infNum neg
    | none =>
      if matchesTrue v then JsVal.boolean true
      else if matchesFalse v then JsVal.boolean false
      else JsVal.str v

/-- Decimal printing of a natural number, digit by digit. -/
def natToChars (n : Nat) : List Char :=
  if _h : n < 10 then [digitChar n]
  else natToChars (n / 10) ++ [digitChar (n % 10)]
decreasing_by
  exact Nat.div_lt_self (by omega) (by omega)

/-- Exponential-notation print of a magnitude of at least `10 ^ 21`, as
`Number.prototype.toString` uses for such doubles: the leading digit, the
remaining significant digits (trailing zeros stripped) after a point, and
the `e+` exponent.  Exact for the integers a double represents exactly. -/
def jsExpChars (m : Nat) : List Char :=
  let ds := natToChars m
  let sig := (List.dropWhile (fun c => c == '0') ds.reverse).reverse
  let e := ds.length - 1
  match sig with
  | [] => ['0']
  | d :: rest =>
    if rest.isEmpty then d :: 'e' :: '+' :: natToChars e
    else d :: '.' :: (rest ++ 'e' :: '+' :: natToChars e)

/-- Model of `Number.prototype.toString` on an integral double: plain
decimal below `10 ^ 21`, exponential notation at or above it. -/
def jsIntToString (n : Int) : String :=
  if n.natAbs < 10 ^ 21 then
    if n < 0 then String.mk ('-' :: natToChars n.natAbs)
    else String.mk (natToChars n.toNat)
  else
    if n < 0 then String.mk ('-' :: jsExpChars n.natAbs)
    else String.mk (jsExpChars n.natAbs)

/-- Decimal printing of the fractional digits of a rational whose
denominator divides `10 ^ k` (every finite double is such a rational);
produces `k` digits, most significant first. -/
def fracChars (q : Rat) (k : Nat) : List Char :=
  natToChars ((q * (10 : Rat) ^ k).num.toNat)

/-- The least `k ≤ fuel` with `q.den ∣ 10 ^ k`, if any. -/
def decExponent (den : Nat) : Nat → Option Nat
  | 0 => if den ∣ 1 then some 0 else none
  | fuel + 1 =>
    match decExponent den fuel with
    | some k => some k
    | none => if den ∣ 10 ^ (fuel + 1) then some (fuel + 1) else none

/-- Model of `Number.prototype.toString` on the value domain.  Non-integral finite
numbers print their terminating decimal expansion when one exists within
1100 digits (every double terminates well within that); the fraction-bar
fallback is unreachable for values a double can hold.  JS shortest-roundtrip
printing of doubles is idealized to exact printing; the claims proved below
only evaluate this on integers, booleans and strings. -/
def toStringJs : JsVal → String
  | JsVal.str s => s
  | JsVal.intNum n => jsIntToString n
  | JsVal.floatNum q =>
    match decExponent q.den 1100 with
    | some k =>
      let sign : List Char := if q < 0 then ['-'] else []
      let whole := natToChars (q.num.natAbs / q.den)
      let frac := fracChars (|q| - (((q.num.natAbs / q.den) : Nat) : Rat)) k
      let fracPadded := List.replicate (k - frac.length) '0' ++ frac
      String.mk (sign ++ whole ++ '.' :: fracPadded)
    | none => String.mk (natToChars q.num.natAbs ++ '/' :: natToChars q.den)
  | JsVal.infNum neg => if neg then "-Infinity" else "Infinity"
  | JsVal.nanNum => "NaN"
  | JsVal.boolean b => if b then "true" else "false"
  | JsVal.undef => "undefined"

/-- A domain object: insertion-ordered fields. -/
abbrev Obj := List (String × JsVal)

/-- Field lookup (`obj.k`), `undefined` when absent. -/
def getField (obj : Obj) (k : String) : JsVal :=
  match List.find? (fun kv => kv.1 == k) obj with
  | some kv => kv.2
  | none => JsVal.undef

/-- Model of `Object.entries` of a scalar standing where an object was expected:
a string yields its index/character pairs, other primitives yield none. -/
def entriesOfScalar : JsVal → Obj
  | JsVal.str s =>
    (List.enum s.toList).map
      (fun p => (String.mk (natToChars p.1), JsVal.str (String.mk [p.2])))
  | _ => []

/-- The `convert` helper of `clean`: keep scalar-typed fields, stringify
each value. -/
def convert (entries : Obj) : List (String × String) :=
  List.map (fun kv => (kv.1, toStringJs kv.2))
    (List.filter (fun kv => isScalarType kv.2) entries)

/-- Model of `clean(obj)` : the custom port format (`obj.port && obj.args` truthy)
converts `obj.args`, otherwise the object itself is converted. -/
def clean (obj : Obj) : List (String × String) :=
  if truthy (getField obj "port") && truthy (getField obj "args") then
    convert (entriesOfScalar (getField obj "args"))
  else convert obj

/-- Object spread `{...a, ...b}` : keys of `a` keep their position, with the
value from `b` when `b` also has the key; new keys of `b` are appended. -/
def spreadMerge (a b : Obj) : Obj :=
  List.map
    (fun kv =>
      match List.find? (fun kw => kw.1 == kv.1) b with
      | some kw => (kv.1, kw.2)
      | none => kv) a ++
  List.filter (fun kw => (List.find? (fun kv => kv.1 == kw.1) a).isNone) b

/-- The lift step of `callWasmFunction` applied to the reply key/value
array: `.map(([k, v]) => ({[k]: parse(v)})).reduce((a, b) => ({...a, ...b}))`.
`reduce` with no initial value throws on an empty array (`none`). -/
def liftKV (kv : List (String × String)) : Option Obj :=
  match List.map (fun p => [(p.1, parseJs p.2)]) kv with
  | [] => none
  | h :: t => some (List.foldl spreadMerge h t)

/-- Lower-then-lift round trip on a domain object, with the WASM function
taken as the identity on the key/value array. -/
def roundTrip (obj : Obj) : Option Obj :=
  liftKV (clean obj)

/-- Field values whose coercion is the inverse of stringification: booleans,
integral numbers of magnitude below `10 ^ 21` (at which point `toString`
switches to exponential notation, which `parseInt` truncates), and strings
that no branch of `parse` captures (no leading numeric prefix for
`parseInt`, no `parseFloat` value, no case-insensitive `true` / `false`
substring). -/
def goodVal : JsVal → Bool
  | JsVal.boolean _ => true
  | JsVal.intNum n => decide (n.natAbs < 10 ^ 21)
  | JsVal.str s =>
    (parseIntJs s).isNone && (parseFloatJs s).isNone &&
      !matchesTrue s && !matchesFalse s
  | _ => false

end Wasm


/-!  Theorems.  The first group settles the claims about the scheduler and
the registry; the second group settles the claims about the WASM interop
round trip.  Helper lemmas shared by several claims come first. -/

namespace Aegis

/-- A default pool, as built by the constructor for model ORDER. -/
def samplePool : PoolState := initPool "ORDER" {}

/-- Allocation never touches the job counters. -/
theorem threadAlloc_counters (s : PoolState) :
    (threadAlloc s).2.jobsRequested = s.jobsRequested ∧
    (threadAlloc s).2.jobsQueued = s.jobsQueued := by
  unfold threadAlloc
  split <;> simp [newThread]

/-- Counter behaviour of one `run` call: `jobsRequested` always rises by
one, `jobsQueued` by at most one. -/
theorem run_counters (s : PoolState) (j : Nat) :
    (run s j).2.jobsRequested = s.jobsRequested + 1 ∧
    ((run s j).2.jobsQueued = s.jobsQueued ∨
      (run s j).2.jobsQueued = s.jobsQueued + 1) := by
  by_cases hc : s.closed
  · simp [run, hc]
  · cases hf : s.freeThreads with
    | cons t rest => simp [run, hc, hf]
    | nil =>
      simp only [run, hc, hf]
      simp only [Bool.false_eq_true, if_false]
      split
      next t s2 heq =>
        have h2 := threadAlloc_counters
          { s with jobsRequested := s.jobsRequested + 1, freeThreads := [], closed := false }
        rw [heq] at h2
        simp at h2 ⊢
        omega
      next s2 heq =>
        have h2 := threadAlloc_counters
          { s with jobsRequested := s.jobsRequested + 1, freeThreads := [], closed := false }
        rw [heq] at h2
        simp at h2 ⊢
        omega

/-- A worker completion never touches the two job counters. -/
theorem completeJob_counters (s : PoolState) (t : Nat) (ev : WorkerEvent) :
    (completeJob s t ev).2.jobsRequested = s.jobsRequested ∧
    (completeJob s t ev).2.jobsQueued = s.jobsQueued := by
  cases ev with
  | workerError => simp [completeJob]
  | reply r => cases hw : s.waitingJobs <;> simp [completeJob, hw]

/-- The invariant `jobsQueued ≤ jobsRequested` is preserved by every event. -/
theorem replay_jobsQueued_le (es : List PoolEvent) :
    ∀ s : PoolState, s.jobsQueued ≤ s.jobsRequested →
      (replay s es).jobsQueued ≤ (replay s es).jobsRequested := by
  induction es with
  | nil => intro s h; exact h
  | cons e tl ih =>
    intro s h
    refine ih (step s e) ?_
    cases e with
    | submit j =>
      have hc := run_counters s j
      simp only [step]
      omega
    | workerDone t ev =>
      have hc := completeJob_counters s t ev
      simp only [step]
      omega

/-- Arithmetic core of the rate bound: a rounded percentage of a fraction
at most one is at most `100`. -/
theorem jsRoundPct_le_100 {q r v : Nat} (hqr : q ≤ r)
    (hv : jsRoundPct q r = some v) : v ≤ 100 := by
  unfold jsRoundPct at hv
  by_cases hr : r = 0
  · simp [hr] at hv
  · simp only [hr, if_false, Option.some.injEq] at hv
    subst hv
    have hlt : 200 * q + r < 101 * (2 * r) := by omega
    have := (Nat.div_lt_iff_lt_mul (by omega : 0 < 2 * r)).mpr hlt
    omega

/-- C8. For every sequence of `run` submissions and worker completions
starting from a freshly constructed pool, `jobsQueued` stays at most
`jobsRequested`, and the queue rate `round(100 * jobsQueued /
jobsRequested)` never exceeds 100 (the `NaN` of `jobsRequested = 0`,
present only until the first submission, compares below any tolerance). -/
theorem queue_rate_never_exceeds_100 (name : String) (opts : PoolOptions)
    (es : List PoolEvent) :
    (replay (initPool name opts) es).jobsQueued ≤
      (replay (initPool name opts) es).jobsRequested ∧
    rateLe100 (replay (initPool name opts) es) = true := by
  have h := replay_jobsQueued_le es (initPool name opts) (by simp [initPool])
  refine ⟨h, ?_⟩
  unfold rateLe100
  cases hv : jobQueueRate (replay (initPool name opts) es) with
  | none => rfl
  | some v =>
    simpa using jsRoundPct_le_100 h hv

/-- C10. The promise returned by `run` is never rejected: every path either
resolves it (with a Result — error Results included — or with `undefined`
when a worker `error` event was swallowed) or leaves it pending forever. -/
theorem run_promise_never_rejected (s : PoolState) (jobId : Nat)
    (exec : Option (Nat × WorkerEvent)) :
    isRejected (runEventualOutcome s jobId exec) = false := by
  unfold runEventualOutcome
  cases exec with
  | none => rfl
  | some p =>
    obtain ⟨t, ev⟩ := p
    cases ev with
    | workerError => rfl
    | reply r =>
      cases hw : ((run s jobId).2).waitingJobs <;>
        simp [completeJob, hw, isRejected]

/-- C2 counterexample. A pool with one free thread dispatches a job; the
worker replies with the error Result; the promise returned by `run`
settles by resolution with that Result — it is not rejected. -/
theorem error_result_not_rejected_cex :
    runEventualOutcome { samplePool with freeThreads := [0], totalThreads := 1 } 0
        (some (0, WorkerEvent.reply { hasError := true, message := "boom" })) =
      PromiseOutcome.resolvedResult { hasError := true, message := "boom" } ∧
    isRejected
        (runEventualOutcome { samplePool with freeThreads := [0], totalThreads := 1 } 0
          (some (0, WorkerEvent.reply { hasError := true, message := "boom" }))) = false := by
  constructor <;> rfl

/-- C2 amended. When a worker reply is an error Result, the promise is
resolved with that Result (the caller must inspect `hasError`, as the
use-case callers do); the pool stays healthy: the thread is handed the next
waiting job or pushed back onto `freeThreads`, and the `closed` flag — the
only admission gate — is untouched. -/
theorem error_result_resolved_pool_healthy (s : PoolState) (t : Nat)
    (r : JobResult) (h : r.hasError = true) :
    (completeJob s t (WorkerEvent.reply r)).1 = PromiseOutcome.resolvedResult r ∧
    (completeJob s t (WorkerEvent.reply r)).2.closed = s.closed ∧
    ((s.waitingJobs = [] ∧ t ∈ (completeJob s t (WorkerEvent.reply r)).2.freeThreads) ∨
      (s.waitingJobs ≠ [] ∧
        (completeJob s t (WorkerEvent.reply r)).2.waitingJobs = s.waitingJobs.tail)) := by
  cases hw : s.waitingJobs <;> simp [completeJob, hw]

/-- C2 witness: the amended theorem applied at a concrete error reply. -/
theorem error_result_resolved_pool_healthy_witness :
    (JobResult.mk true "boom").hasError = true ∧
    ((completeJob samplePool 3 (WorkerEvent.reply (JobResult.mk true "boom"))).1 =
        PromiseOutcome.resolvedResult (JobResult.mk true "boom") ∧
      (completeJob samplePool 3 (WorkerEvent.reply (JobResult.mk true "boom"))).2.closed =
        samplePool.closed ∧
      ((samplePool.waitingJobs = [] ∧
          3 ∈ (completeJob samplePool 3 (WorkerEvent.reply (JobResult.mk true "boom"))).2.freeThreads) ∨
        (samplePool.waitingJobs ≠ [] ∧
          (completeJob samplePool 3 (WorkerEvent.reply (JobResult.mk true "boom"))).2.waitingJobs =
            samplePool.waitingJobs.tail))) :=
  ⟨rfl, error_result_resolved_pool_healthy samplePool 3 (JobResult.mk true "boom") rfl⟩

/-- C3 counterexample. A closed pool with one busy thread and no completion
within the bound: `drain` resolves with `undefined` — the internal timeout
rejection is swallowed by `.catch(console.error)`, so no drain-timeout
error reaches the caller. -/
theorem drain_timeout_not_surfaced_cex :
    drain { samplePool with closed := true, totalThreads := 1, busyThreads := [0] } false =
      PromiseOutcome.resolvedUndefined ∧
    isRejected
        (drain { samplePool with closed := true, totalThreads := 1, busyThreads := [0] }
          false) = false := by
  constructor <;> rfl

/-- C3 amended. `drain` rejects (with the close-pool-first error) exactly
when the pool is still open; when closed it resolves with the pool as soon
as `noJobsRunning` holds, or once the event fires within the 4-second
bound; when the bound expires the rejection is caught and logged
internally, and the caller observes resolution with `undefined` instead of
a surfaced drain-timeout error. -/
theorem drain_behavior (s : PoolState) (b : Bool) :
    (s.closed = false → drain s b = PromiseOutcome.rejected "close pool first") ∧
    (s.closed = true → noJobsRunning s = true → drain s b = PromiseOutcome.resolvedPool) ∧
    (s.closed = true → noJobsRunning s = false → b = false →
      drain s b = PromiseOutcome.resolvedUndefined) ∧
    (s.closed = true → noJobsRunning s = false → b = true →
      drain s b = PromiseOutcome.resolvedPool) := by
  refine ⟨fun h1 => ?_, fun h1 h2 => ?_, fun h1 h2 h3 => ?_, fun h1 h2 h3 => ?_⟩ <;>
    simp [drain, h1] <;> simp_all

/-- C3 witness: the amended theorem applied at a closed idle pool. -/
theorem drain_behavior_witness :
    ({ samplePool with closed := true } : PoolState).closed = true ∧
    noJobsRunning { samplePool with closed := true } = true ∧
    drain { samplePool with closed := true } true = PromiseOutcome.resolvedPool :=
  ⟨rfl, rfl, (drain_behavior { samplePool with closed := true } true).2.1 rfl rfl⟩

/-- C4 (story of the code defect). Destroying a registered idle pool runs
close, drain and stopThreads in order (the stored pool ends closed with no
threads), but the final `threadPools.delete(pool)` passes the ThreadPool
object where the string key is expected, so `delete` returns `false`, the
entry survives, and the destroyed name is still listed by the registry. -/
theorem destroy_does_not_remove_entry :
    (destroy [("ORDER", samplePool)] "ORDER" true).1 = PromiseOutcome.resolvedBool false ∧
    listPools (destroy [("ORDER", samplePool)] "ORDER" true).2 = ["ORDER"] ∧
    (List.map (fun kv => (kv.2.closed, kv.2.totalThreads, kv.2.freeThreads))
        (destroy [("ORDER", samplePool)] "ORDER" true).2) =
      [(true, 0, ([] : List Nat))] := by
  refine ⟨rfl, rfl, rfl⟩

/-- C5 (story of the code defect). `createThreadPool` stores the pool under
the raw model name: creating a pool for the model named in lower case
leaves a lower-case registry key, the upper-cased lookup used by `reload`,
`destroy` and `status` misses it, and `destroy` does nothing — its inner
no-such-pool rejection is swallowed by the trailing `.catch`, the caller
observes resolution with `undefined`, and the registry keeps the pool
under its lower-case key. -/
theorem create_pool_key_not_uppercased :
    listPools (createThreadPool [] "order" {}).2 = ["order"] ∧
    jsToUpper "order" = "ORDER" ∧
    lookupPool (createThreadPool [] "order" {}).2 (jsToUpper "order") = none ∧
    (destroy (createThreadPool [] "order" {}).2 "order" true).1 =
      PromiseOutcome.resolvedUndefined ∧
    listPools (destroy (createThreadPool [] "order" {}).2 "order" true).2 = ["order"] := by
  refine ⟨rfl, rfl, rfl, rfl, rfl⟩

/-- C6 counterexample. A pool that still owns one (free) thread: a call of
`startThreads` does not reject — it resolves with the pool after starting
`min = 1` further thread, leaving two threads where the claim requires a
rejection and no start at all. -/
theorem startThreads_no_reject_cex :
    (startThreadsP { samplePool with freeThreads := [0], totalThreads := 1, nextThreadId := 1 }).1 =
      PromiseOutcome.resolvedPool ∧
    (startThreadsP { samplePool with freeThreads := [0], totalThreads := 1, nextThreadId := 1 }).2.totalThreads = 2 ∧
    (startThreadsP { samplePool with freeThreads := [0], totalThreads := 1, nextThreadId := 1 }).2.freeThreads = [0, 1] := by
  refine ⟨rfl, rfl, rfl⟩

/-- Effect of the `startThreads` loop body iterated `n` times. -/
theorem startThreadsGo_counts (n : Nat) :
    ∀ s : PoolState,
      (startThreadsGo s n).totalThreads = s.totalThreads + n ∧
      (startThreadsGo s n).freeThreads.length = s.freeThreads.length + n ∧
      (startThreadsGo s n).closed = s.closed := by
  induction n with
  | zero => intro s; simp [startThreadsGo]
  | succ m ih =>
    intro s
    have h := ih { s with
      freeThreads := s.freeThreads ++ [s.nextThreadId]
      totalThreads := s.totalThreads + 1
      nextThreadId := s.nextThreadId + 1 }
    simp only [startThreadsGo]
    simp only [newThread] at h ⊢
    refine ⟨?_, ?_, ?_⟩
    · rw [h.1]; omega
    · rw [h.2.1]
      simp only [List.length_append, List.length_cons, List.length_nil]
      omega
    · exact h.2.2

/-- C6 amended. `startThreads` never rejects: it always resolves with the
pool after starting exactly `min` new Threads and pushing each onto
`freeThreads`, whether or not Threads already exist; consequently it brings
the pool to exactly `min` Threads only when called on an empty pool. -/
theorem startThreads_always_starts_min (s : PoolState) :
    (startThreadsP s).1 = PromiseOutcome.resolvedPool ∧
    (startThreadsP s).2.totalThreads = s.totalThreads + s.minThreads ∧
    (startThreadsP s).2.freeThreads.length = s.freeThreads.length + s.minThreads ∧
    (s.totalThreads = 0 → (startThreadsP s).2.totalThreads = s.minThreads) := by
  have h := startThreadsGo_counts s.minThreads s
  refine ⟨rfl, ?_, ?_, ?_⟩ <;> simp [startThreadsP, startThreads] <;> omega

/-- C6 witness: the amended theorem applied at the empty sample pool. -/
theorem startThreads_always_starts_min_witness :
    (startThreadsP samplePool).1 = PromiseOutcome.resolvedPool ∧
    (startThreadsP samplePool).2.totalThreads = samplePool.totalThreads + samplePool.minThreads ∧
    (startThreadsP samplePool).2.freeThreads.length =
      samplePool.freeThreads.length + samplePool.minThreads ∧
    (samplePool.totalThreads = 0 →
      (startThreadsP samplePool).2.totalThreads = samplePool.minThreads) :=
  startThreads_always_starts_min samplePool

/-- Propositional reading of the boolean growth condition. -/
theorem threadAllocCond_iff (s : PoolState) :
    threadAllocCond s = true ↔
      (s.totalThreads = 0 ∨ (s.totalThreads < s.maxThreads ∧
        ∃ v, jobQueueRate s = some v ∧ s.queueTolerance < v)) := by
  unfold threadAllocCond rateAboveTolerance
  cases h : jobQueueRate s with
  | none => simp [h]
  | some v => simp [h]

theorem run_new_thread_iff_growth_condition (s : PoolState) (j : Nat)
    (hcl : s.closed = false) (hfree : s.freeThreads = []) :
    ((run s j).2.totalThreads = s.totalThreads + 1 ↔
      (s.totalThreads = 0 ∨ (s.totalThreads < s.maxThreads ∧
        ∃ v, jsRoundPct s.jobsQueued (s.jobsRequested + 1) = some v ∧
          s.queueTolerance < v))) ∧
    (s.totalThreads ≠ 0 →
      jsRoundPct s.jobsQueued (s.jobsRequested + 1) = some s.queueTolerance →
      (run s j).1 = RunAction.queued ∧
      (run s j).2.totalThreads = s.totalThreads ∧
      (run s j).2.waitingJobs = s.waitingJobs ++ [j]) := by
  have hcond : (threadAllocCond
      { s with jobsRequested := s.jobsRequested + 1, freeThreads := [], closed := false } = true) ↔
      (s.totalThreads = 0 ∨ (s.totalThreads < s.maxThreads ∧
        ∃ v, jsRoundPct s.jobsQueued (s.jobsRequested + 1) = some v ∧
          s.queueTolerance < v)) := threadAllocCond_iff _
  simp only [run, hcl, hfree, Bool.false_eq_true, if_false]
  by_cases hc : threadAllocCond
      { s with jobsRequested := s.jobsRequested + 1, freeThreads := [], closed := false } = true
  · simp only [threadAlloc, hc, if_true, newThread]
    constructor
    · exact ⟨fun _ => hcond.mp hc, fun _ => by simp⟩
    · intro hne hrate
      rcases hcond.mp hc with h0 | ⟨hlt, v, hv, hgt⟩
      · exact absurd h0 hne
      · rw [hrate] at hv
        cases hv
        omega
  · have hcf : threadAllocCond
        { s with jobsRequested := s.jobsRequested + 1, freeThreads := [], closed := false } = false := by
      revert hc
      cases threadAllocCond
        { s with jobsRequested := s.jobsRequested + 1, freeThreads := [], closed := false } <;> simp
    simp only [threadAlloc, hcf, Bool.false_eq_true, if_false]
    constructor
    · constructor
      · intro habs
        simp at habs
      · intro hrhs
        exact absurd (hcond.mpr hrhs) hc
    · intro _ _
      refine ⟨?_, ?_, ?_⟩ <;> simp

/-- C1 witness: the growth theorem applied at a fresh default pool. -/
theorem run_new_thread_iff_growth_condition_witness :
    samplePool.closed = false ∧ samplePool.freeThreads = [] ∧
    (((run samplePool 5).2.totalThreads = samplePool.totalThreads + 1 ↔
        (samplePool.totalThreads = 0 ∨ (samplePool.totalThreads < samplePool.maxThreads ∧
          ∃ v, jsRoundPct samplePool.jobsQueued (samplePool.jobsRequested + 1) = some v ∧
            samplePool.queueTolerance < v))) ∧
      (samplePool.totalThreads ≠ 0 →
        jsRoundPct samplePool.jobsQueued (samplePool.jobsRequested + 1) =
          some samplePool.queueTolerance →
        (run samplePool 5).1 = RunAction.queued ∧
        (run samplePool 5).2.totalThreads = samplePool.totalThreads ∧
        (run samplePool 5).2.waitingJobs = samplePool.waitingJobs ++ [5])) :=
  ⟨rfl, rfl, run_new_thread_iff_growth_condition samplePool 5 rfl rfl⟩

/-- C7. Called in its specified place — after a successful drain, when no
thread is busy — `stopThreads` terminates every Thread of the pool, and the
action trace shows all Threads removed from the free stack first, then the
delay, and only then the terminations. -/
theorem stopThreads_removes_then_terminates_all (s : PoolState)
    (h : s.busyThreads = []) :
    (∀ t ∈ poolThreads s, StopAction.terminate t ∈ (stopThreads s).2) ∧
    (stopThreads s).2.head? = some (StopAction.removeFromFreeStack s.freeThreads) ∧
    (∀ a ∈ List.tail (stopThreads s).2,
      a = StopAction.delay ∨ ∃ t, a = StopAction.terminate t) ∧
    (stopThreads s).1.freeThreads = [] ∧
    (stopThreads s).1.totalThreads = 0 := by
  refine ⟨?_, rfl, ?_, rfl, rfl⟩
  · intro t ht
    simp [poolThreads, h] at ht
    simp [stopThreads, List.mem_cons, List.mem_map]
    exact ht
  · intro a ha
    simp [stopThreads] at ha
    rcases ha with rfl | ⟨t, ht, rfl⟩
    · exact Or.inl rfl
    · exact Or.inr ⟨t, rfl⟩

/-- C7 witness: the theorem applied at a drained two-thread pool. -/
theorem stopThreads_removes_then_terminates_all_witness :
    ({ samplePool with freeThreads := [0, 1], totalThreads := 2 } : PoolState).busyThreads = [] ∧
    ((∀ t ∈ poolThreads { samplePool with freeThreads := [0, 1], totalThreads := 2 },
        StopAction.terminate t ∈
          (stopThreads { samplePool with freeThreads := [0, 1], totalThreads := 2 }).2) ∧
      (stopThreads { samplePool with freeThreads := [0, 1], totalThreads := 2 }).2.head? =
        some (StopAction.removeFromFreeStack
          ({ samplePool with freeThreads := [0, 1], totalThreads := 2 } : PoolState).freeThreads) ∧
      (∀ a ∈ List.tail
          (stopThreads { samplePool with freeThreads := [0, 1], totalThreads := 2 }).2,
        a = StopAction.delay ∨ ∃ t, a = StopAction.terminate t) ∧
      (stopThreads { samplePool with freeThreads := [0, 1], totalThreads := 2 }).1.freeThreads = [] ∧
      (stopThreads { samplePool with freeThreads := [0, 1], totalThreads := 2 }).1.totalThreads = 0) :=
  ⟨rfl, stopThreads_removes_then_terminates_all
    { samplePool with freeThreads := [0, 1], totalThreads := 2 } rfl⟩

end Aegis

namespace Wasm

/-- Characters printed for digits are decimal digits. -/
theorem digitChar_digit {d : Nat} (h : d < 10) : jsIsDigit (digitChar d) = true := by
  interval_cases d <;> decide

/-- Printing then valuing a digit is the identity. -/
theorem digitVal_digitChar {d : Nat} (h : d < 10) : digitVal (digitChar d) = d := by
  interval_cases d <;> decide

/-- Numeric range of a decimal digit character. -/
theorem jsIsDigit_toNat {c : Char} (h : jsIsDigit c = true) :
    48 ≤ c.toNat ∧ c.toNat ≤ 57 := by
  simpa [jsIsDigit] using h

/-- A digit is not scanner whitespace. -/
theorem digit_not_space {c : Char} (h : jsIsDigit c = true) : jsIsSpace c = false := by
  obtain ⟨h1, h2⟩ := jsIsDigit_toNat h
  simp only [jsIsSpace, Bool.or_eq_false_iff, Bool.and_eq_false_iff,
    decide_eq_false_iff_not]
  omega

/-- A digit begins no sign, so `readSign` passes it through. -/
theorem readSign_digit {c : Char} (h : jsIsDigit c = true) (tl : List Char) :
    readSign (c :: tl) = (false, c :: tl) := by
  obtain ⟨h1, h2⟩ := jsIsDigit_toNat h
  have hm : (c == '-') = false := by
    simp only [beq_eq_false_iff_ne]
    intro heq; rw [heq] at h1 h2; revert h1 h2; decide
  have hp : (c == '+') = false := by
    simp only [beq_eq_false_iff_ne]
    intro heq; rw [heq] at h1 h2; revert h1 h2; decide
  simp [readSign, hm, hp]

/-- A digit is not the `x` of a hex prefix. -/
theorem digit_not_x {c : Char} (h : jsIsDigit c = true) :
    (c == 'x') = false ∧ (c == 'X') = false := by
  obtain ⟨h1, h2⟩ := jsIsDigit_toNat h
  constructor <;>
    · simp only [beq_eq_false_iff_ne]
      intro heq; rw [heq] at h1 h2; revert h1 h2; decide

/-- Scanning keeps a list all of whose characters satisfy the predicate. -/
theorem takeWhile_of_all {α : Type} {p : α → Bool} {l : List α}
    (h : ∀ c ∈ l, p c = true) : List.takeWhile p l = l := by
  induction l with
  | nil => rfl
  | cons c tl ih =>
    rw [List.takeWhile_cons, h c (List.mem_cons_self c tl)]
    simp only [if_true]
    rw [ih (fun d hd => h d (List.mem_cons_of_mem c hd))]

/-- Valuing one more digit multiplies by the base and adds it. -/
theorem decVal_append_single (ds : List Char) (c : Char) :
    decVal (ds ++ [c]) = 10 * decVal ds + digitVal c := by
  simp [decVal, List.foldl_append]

/-- Every character printed for a natural number is a digit. -/
theorem natToChars_all_digit : ∀ n : Nat, ∀ c ∈ natToChars n, jsIsDigit c = true := by
  intro n
  induction n using Nat.strong_induction_on with
  | _ n ih =>
    intro c hc
    rw [natToChars] at hc
    by_cases h : n < 10
    · rw [dif_pos h] at hc
      simp only [List.mem_singleton] at hc
      subst hc
      exact digitChar_digit h
    · rw [dif_neg h] at hc
      rcases List.mem_append.mp hc with h1 | h2
      · exact ih (n / 10) (Nat.div_lt_self (by omega) (by omega)) c h1
      · simp only [List.mem_singleton] at h2
        subst h2
        exact digitChar_digit (Nat.mod_lt _ (by omega))

/-- The decimal print of a natural number is never empty. -/
theorem natToChars_ne_nil (n : Nat) : natToChars n ≠ [] := by
  rw [natToChars]
  by_cases h : n < 10
  · rw [dif_pos h]; simp
  · rw [dif_neg h]; simp

/-- Valuing the decimal print of a natural number recovers it. -/
theorem decVal_natToChars : ∀ n : Nat, decVal (natToChars n) = n := by
  intro n
  induction n using Nat.strong_induction_on with
  | _ n ih =>
    rw [natToChars]
    by_cases h : n < 10
    · rw [dif_pos h]
      simp [decVal, digitVal_digitChar h]
    · rw [dif_neg h]
      rw [decVal_append_single, ih (n / 10) (Nat.div_lt_self (by omega) (by omega)),
        digitVal_digitChar (Nat.mod_lt _ (by omega))]
      omega

/-- The scanner core on a non-empty all-digit list returns its value. -/
theorem parseIntCore_digits {l : List Char} (hne : l ≠ [])
    (hall : ∀ c ∈ l, jsIsDigit c = true) (neg : Bool) :
    parseIntCore l neg = some (applySign neg (decVal l)) := by
  obtain ⟨c, tl, rfl⟩ := List.exists_cons_of_ne_nil hne
  have hhex : (match c :: tl with
      | c0 :: c1 :: _ => c0 == '0' && (c1 == 'x' || c1 == 'X')
      | _ => false) = false := by
    cases tl with
    | nil => rfl
    | cons c1 tl2 =>
      have hd1 : jsIsDigit c1 = true :=
        hall c1 (List.mem_cons_of_mem c (List.mem_cons_self c1 tl2))
      obtain ⟨hx, hX⟩ := digit_not_x hd1
      simp [hx, hX]
  simp only [parseIntCore, hhex, Bool.false_eq_true, if_false]
  rw [takeWhile_of_all hall]
  simp

/-- Parsing the integral print of an integer recovers it. -/
theorem parseIntJs_jsIntToString (n : Int) (hlt : n.natAbs < 10 ^ 21) :
    parseIntJs (jsIntToString n) = some n := by
  by_cases hneg : n < 0
  · have hstr : jsIntToString n = String.mk ('-' :: natToChars n.natAbs) := by
      unfold jsIntToString
      rw [if_pos hlt, if_pos hneg]
    rw [hstr]
    have hall := natToChars_all_digit n.natAbs
    have hne := natToChars_ne_nil n.natAbs
    simp only [parseIntJs]
    have hsp : jsIsSpace '-' = false := by decide
    have hdrop : List.dropWhile jsIsSpace ('-' :: natToChars n.natAbs) =
        '-' :: natToChars n.natAbs := by
      rw [List.dropWhile_cons, hsp]
      simp
    have htl : (String.mk ('-' :: natToChars n.natAbs)).toList =
        '-' :: natToChars n.natAbs := rfl
    rw [htl, hdrop]
    have hsign : readSign ('-' :: natToChars n.natAbs) = (true, natToChars n.natAbs) := by
      simp [readSign]
    rw [hsign]
    rw [parseIntCore_digits hne hall true]
    rw [decVal_natToChars]
    simp only [applySign, if_true, Option.some.injEq]
    omega
  · have hstr : jsIntToString n = String.mk (natToChars n.toNat) := by
      unfold jsIntToString
      rw [if_pos hlt, if_neg hneg]
    rw [hstr]
    have hall := natToChars_all_digit n.toNat
    have hne := natToChars_ne_nil n.toNat
    obtain ⟨c, tl, hl⟩ := List.exists_cons_of_ne_nil hne
    have hc : jsIsDigit c = true := hall c (hl ▸ List.mem_cons_self c tl)
    simp only [parseIntJs]
    have htl : (String.mk (natToChars n.toNat)).toList = natToChars n.toNat := rfl
    rw [htl, hl]
    have hdrop : List.dropWhile jsIsSpace (c :: tl) = c :: tl := by
      rw [List.dropWhile_cons]
      simp [digit_not_space hc]
    rw [hdrop, readSign_digit hc tl]
    have hall2 : ∀ d ∈ c :: tl, jsIsDigit d = true := fun d hd => hall d (hl ▸ hd)
    rw [parseIntCore_digits (by simp) hall2 false]
    rw [← hl, decVal_natToChars]
    simp only [applySign, Bool.false_eq_true, if_false, Option.some.injEq]
    omega

/-- Good values are scalar-typed, so `clean` keeps them. -/
theorem goodVal_scalar {v : JsVal} (h : goodVal v = true) : isScalarType v = true := by
  cases v <;> simp_all [goodVal, isScalarType, typeofJs]

set_option maxRecDepth 8000 in
/-- Stringify-then-coerce is the identity on good values. -/
theorem parseJs_toString_good {v : JsVal} (h : goodVal v = true) :
    parseJs (toStringJs v) = v := by
  cases v with
  | str s =>
    simp only [goodVal, Bool.and_eq_true, Bool.not_eq_eq_eq_not, Bool.not_true] at h
    obtain ⟨⟨⟨h1, h2⟩, h3⟩, h4⟩ := h
    rw [Option.isNone_iff_eq_none] at h1 h2
    show parseJs s = JsVal.str s
    unfold parseJs
    simp only [h1, h2, h3, h4, Bool.false_eq_true, if_false]
  | intNum n =>
    have hlt : n.natAbs < 10 ^ 21 := by
      simpa [goodVal] using h
    show parseJs (jsIntToString n) = JsVal.intNum n
    unfold parseJs
    rw [parseIntJs_jsIntToString n hlt]
  | boolean b => cases b <;> decide
  | floatNum q => simp [goodVal] at h
  | infNum neg => simp [goodVal] at h
  | nanNum => simp [goodVal] at h
  | undef => simp [goodVal] at h

/-- Spreading a fresh-keyed singleton appends it. -/
theorem spreadMerge_single (acc : Obj) (p : String × JsVal)
    (hk : ∀ kv ∈ acc, kv.1 ≠ p.1) : spreadMerge acc [p] = acc ++ [p] := by
  unfold spreadMerge
  have hmap : ∀ l : Obj, (∀ kv ∈ l, kv.1 ≠ p.1) →
      List.map (fun kv => match List.find? (fun kw => kw.1 == kv.1) [p] with
        | some kw => (kv.1, kw.2)
        | none => kv) l = l := by
    intro l
    induction l with
    | nil => intro _; rfl
    | cons a tl ih =>
      intro hl
      have ha : (p.1 == a.1) = false := by
        simp only [beq_eq_false_iff_ne]
        exact fun heq => hl a (List.mem_cons_self a tl) heq.symm
      simp only [List.map_cons]
      rw [ih (fun kv hkv => hl kv (List.mem_cons_of_mem a hkv))]
      have hfind : List.find? (fun kw => kw.1 == a.1) [p] = none := by
        simp [List.find?, ha]
      simp [hfind]
  have hfind2 : List.find? (fun kv => kv.1 == p.1) acc = none :=
    List.find?_eq_none.mpr (fun kv hkv => by simp [hk kv hkv])
  have hfilter : List.filter
      (fun kw => (List.find? (fun kv => kv.1 == kw.1) acc).isNone) [p] = [p] := by
    simp [List.filter, hfind2]
  rw [hmap acc hk, hfilter]

/-- Folding the spread over fresh-keyed singletons concatenates them. -/
theorem foldl_spread_singletons (l : List (String × JsVal)) :
    ∀ acc : Obj,
      (∀ kv ∈ acc, ∀ kw ∈ l, kv.1 ≠ kw.1) →
      (List.map Prod.fst l).Nodup →
      List.foldl spreadMerge acc (List.map (fun p => [p]) l) = acc ++ l := by
  induction l with
  | nil => intro acc _ _; simp
  | cons hd tl ih =>
    intro acc hdisj hnodup
    simp only [List.map_cons, List.foldl_cons]
    rw [spreadMerge_single acc hd
      (fun kv hkv => hdisj kv hkv hd (List.mem_cons_self hd tl))]
    have hnd := List.nodup_cons.mp (show (hd.1 :: List.map Prod.fst tl).Nodup from hnodup)
    rw [ih (acc ++ [hd]) ?_ hnd.2]
    · simp
    · intro kv hkv kw hkw
      rcases List.mem_append.mp hkv with hin | hone
      · exact hdisj kv hin kw (List.mem_cons_of_mem hd hkw)
      · have : kv = hd := by simpa using hone
        subst this
        intro heq
        exact hnd.1 (heq ▸ List.mem_map_of_mem Prod.fst hkw)

/-- The `clean` filter keeps every good-valued field. -/
theorem convert_good (obj : Obj) (hgood : ∀ kv ∈ obj, goodVal kv.2 = true) :
    convert obj = List.map (fun kv => (kv.1, toStringJs kv.2)) obj := by
  unfold convert
  rw [List.filter_eq_self.mpr (fun kv hkv => goodVal_scalar (hgood kv hkv))]

/-- C9 counterexample. A one-field all-scalar domain object whose value is
the string of digits 7: lowering stringifies it unchanged, but the lift
coercion tries the integer parse first and succeeds, so the round trip
returns the number 7 instead of the original string — the claimed identity
fails. -/
theorem roundtrip_fails_on_numeric_string_cex :
    roundTrip [("x", JsVal.str "7")] = some [("x", JsVal.intNum 7)] ∧
    roundTrip [("x", JsVal.str "7")] ≠ some [("x", JsVal.str "7")] := by
  constructor <;> decide

/-- C9 amended. For a non-empty domain object with pairwise-distinct keys,
no truthy `port` / `args` pair (which would reroute `clean`), and every
field a boolean, an integral number, or a string that no coercion branch
captures, lowering then lifting restores the object exactly; the coercion
order is integer parse, then float parse, then boolean match, then string
fallback, which is precisely why scalar objects outside this fragment (for
example a string field reading as a number) are not restored. -/
theorem roundtrip_scalar_restricted (obj : Obj) (hne : obj ≠ [])
    (hnodup : (List.map Prod.fst obj).Nodup)
    (hgood : ∀ kv ∈ obj, goodVal kv.2 = true)
    (hport : (truthy (getField obj "port") && truthy (getField obj "args")) = false) :
    roundTrip obj = some obj := by
  unfold roundTrip clean
  rw [hport]
  simp only [Bool.false_eq_true, if_false]
  rw [convert_good obj hgood]
  unfold liftKV
  have hmap : List.map (fun p => [(p.1, parseJs p.2)])
      (List.map (fun kv => (kv.1, toStringJs kv.2)) obj) =
      List.map (fun kv => [kv]) obj := by
    rw [List.map_map]
    refine List.map_congr_left ?_
    intro kv _hkv
    simp [Function.comp, parseJs_toString_good (hgood kv _hkv)]
  rw [hmap]
  obtain ⟨hd, tl, rfl⟩ := List.exists_cons_of_ne_nil hne
  simp only [List.map_cons]
  rw [foldl_spread_singletons tl [hd] ?_ ?_]
  · rfl
  · intro kv hkv kw hkw
    have hvk : kv = hd := by simpa using hkv
    rw [hvk]
    have hnd := List.nodup_cons.mp
      (show (hd.1 :: List.map Prod.fst tl).Nodup from hnodup)
    intro heq
    exact hnd.1 (heq ▸ List.mem_map_of_mem Prod.fst hkw)
  · exact (List.nodup_cons.mp
      (show (hd.1 :: List.map Prod.fst tl).Nodup from hnodup)).2

/-- C9 witness: the amended theorem applied at a three-field object with a
boolean, an integer and an inert string. -/
theorem roundtrip_scalar_restricted_witness :
    ([("sku", JsVal.str "widget"), ("qty", JsVal.intNum 3),
        ("active", JsVal.boolean true)] : Obj) ≠ [] ∧
    (List.map Prod.fst ([("sku", JsVal.str "widget"), ("qty", JsVal.intNum 3),
        ("active", JsVal.boolean true)] : Obj)).Nodup ∧
    (∀ kv ∈ ([("sku", JsVal.str "widget"), ("qty", JsVal.intNum 3),
        ("active", JsVal.boolean true)] : Obj), goodVal kv.2 = true) ∧
    (truthy (getField [("sku", JsVal.str "widget"), ("qty", JsVal.intNum 3),
        ("active", JsVal.boolean true)] "port") &&
      truthy (getField [("sku", JsVal.str "widget"), ("qty", JsVal.intNum 3),
        ("active", JsVal.boolean true)] "args")) = false ∧
    roundTrip [("sku", JsVal.str "widget"), ("qty", JsVal.intNum 3),
        ("active", JsVal.boolean true)] =
      some [("sku", JsVal.str "widget"), ("qty", JsVal.intNum 3),
        ("active", JsVal.boolean true)] :=
  ⟨by decide, by decide, by decide, by decide,
    roundtrip_scalar_restricted _ (by decide) (by decide) (by decide) (by decide)⟩

end Wasm
